import Mathlib

/-!
Verification of the `neta` message-processing orchestrator against its
natural-language specification.  The definitions below are a shallow
embedding of the Python source under `src/neta/`; each definition's doc
comment names the function it embeds.
-/

namespace Neta

/-! ## Dedup cache — `src/neta/utils/cache.py` (`MessageCache`) -/

/-- Python `\s`-style whitespace set used by `str.strip()` (ASCII part). -/
def pyIsSpace (c : Char) : Bool :=
  c = ' ' || c = '\t' || c = '\n' || c = '\r' || c = '\x0b' || c = '\x0c'

/-- `str.strip()` on a character list: drop whitespace from both ends. -/
def pyStripL (l : List Char) : List Char :=
  ((l.dropWhile pyIsSpace).reverse.dropWhile pyIsSpace).reverse

/-- Python `str.strip()`. -/
def pyStrip (s : String) : String :=
  String.mk (pyStripL s.toList)

/-- Python `str.lower()` (ASCII case folding, which covers every content
string appearing in the spec's examples). -/
def pyLower (s : String) : String :=
  String.mk (s.toList.map Char.toLower)

/-- `MessageCache.hash_content` normalization step:
`content.strip().lower()`. -/
def normalize_content (c : String) : String :=
  pyLower (pyStrip c)

/-- `MessageCache.hash_content`: MD5 of the normalized content.  The MD5
digest itself is an external library call; it is kept abstract as a
function parameter `md5`, applied to the normalized content exactly as the
source does.  Every property proved below holds for an arbitrary `md5`. -/
def hash_content (md5 : String → String) (c : String) : String :=
  md5 (normalize_content c)

/-- The in-memory cache dict: association list `cache_key → timestamp`,
newest entry first (models the Python dict used by `MessageCache`). -/
abbrev Cache := List (String × Nat)

/-- The cache key built by `is_cached`/`cache_content`:
`f"{group_name}:{content_key}"`. -/
def cacheKey (md5 : String → String) (content group : String) : String :=
  group ++ ":" ++ hash_content md5 content

/-- `MessageCache.is_cached`: membership of the group-scoped key. -/
def is_cached (md5 : String → String) (content group : String) (cache : Cache) : Bool :=
  cache.any (fun e => e.1 == cacheKey md5 content group)

/-- `MessageCache.cache_content`: store the key with the current time and
return the content key (the hash without the group scope, as the source
returns `content_key`). -/
def cache_content (md5 : String → String) (content group : String) (now : Nat)
    (cache : Cache) : String × Cache :=
  (hash_content md5 content, (cacheKey md5 content group, now) :: cache)

/-- A history of `cache_content` calls `(content, group, time)` applied to
the empty cache a fresh `MessageCache` starts from. -/
def runCache (md5 : String → String) (calls : List (String × String × Nat)) : Cache :=
  calls.foldl (fun cache call => (cache_content md5 call.1 call.2.1 call.2.2 cache).2) []

theorem is_cached_cache_content (md5 : String → String) (c g : String) (now : Nat)
    (cache : Cache) : is_cached md5 c g ((cache_content md5 c g now cache).2) = true := by
  simp [is_cached, cache_content]

theorem is_cached_eq_false_of_no_key (md5 : String → String) (c g : String) (cache : Cache)
    (h : ∀ e ∈ cache, e.1 ≠ cacheKey md5 c g) : is_cached md5 c g cache = false := by
  simp only [is_cached, List.any_eq_false]
  intro e he
  simpa using h e he

theorem runCache_keys (md5 : String → String) (calls : List (String × String × Nat)) :
    ∀ e ∈ runCache md5 calls, ∃ call ∈ calls, e.1 = cacheKey md5 call.1 call.2.1 := by
  suffices h : ∀ (cache : Cache),
      ∀ e ∈ calls.foldl
        (fun cache call => (cache_content md5 call.1 call.2.1 call.2.2 cache).2) cache,
      (∃ call ∈ calls, e.1 = cacheKey md5 call.1 call.2.1) ∨ e ∈ cache by
    intro e he
    rcases h [] e he with h' | h'
    · exact h'
    · simp at h'
  induction calls with
  | nil => intro cache e he; exact Or.inr he
  | cons call calls ih =>
    intro cache e he
    rcases ih _ e he with h' | h'
    · rcases h' with ⟨call', hmem, hkey⟩
      exact Or.inl ⟨call', List.mem_cons_of_mem _ hmem, hkey⟩
    · rcases List.mem_cons.mp h' with h'' | h''
      · exact Or.inl ⟨call, List.mem_cons_self _ _, by rw [h'']⟩
      · exact Or.inr h''

/-- **C1.** For every group `g` and content `c`: starting from a fresh
(empty) cache, after any history of `cache_content` calls none of which
writes the key of `(c, g)`, `is_cached c g` is `false`; and immediately
after `cache_content c g` returns — from any cache state — `is_cached c g`
is `true`. -/
theorem C1_cache_before_after (md5 : String → String)
    (calls : List (String × String × Nat)) (c g : String)
    (h : ∀ call ∈ calls, cacheKey md5 call.1 call.2.1 ≠ cacheKey md5 c g) :
    is_cached md5 c g (runCache md5 calls) = false ∧
    ∀ (cache : Cache) (now : Nat),
      is_cached md5 c g ((cache_content md5 c g now cache).2) = true := by
  constructor
  · apply is_cached_eq_false_of_no_key
    intro e he
    rcases runCache_keys md5 calls e he with ⟨call, hmem, hkey⟩
    rw [hkey]
    exact h call hmem
  · intro cache now
    exact is_cached_cache_content md5 c g now cache

/-- Witness for C1 at a concrete history: after caching `"foo"` in group
`"g1"`, content `"bar"` is still uncached in `"g1"`, and caching makes any
content cached. -/
theorem C1_cache_before_after_witness :
    is_cached (fun s => s) "bar" "g1" (runCache (fun s => s) [("foo", "g1", 0)]) = false ∧
    ∀ (cache : Cache) (now : Nat),
      is_cached (fun s => s) "bar" "g1"
        ((cache_content (fun s => s) "bar" "g1" now cache).2) = true :=
  C1_cache_before_after (fun s => s) [("foo", "g1", 0)] "bar" "g1" (by decide)

/-- **C9.** The fingerprint is invariant under leading/trailing whitespace
and letter case: for every digest function, `hash_content "Hello"` equals
`hash_content "  hello  "`, and any two contents with the same normalized
(trimmed, case-folded) form yield the same fingerprint. -/
theorem C9_fingerprint_normalization (md5 : String → String) :
    hash_content md5 "Hello" = hash_content md5 "  hello  " ∧
    ∀ c₁ c₂ : String, normalize_content c₁ = normalize_content c₂ →
      hash_content md5 c₁ = hash_content md5 c₂ := by
  constructor
  · exact congrArg md5 (by decide)
  · intro c₁ c₂ h
    exact congrArg md5 h

/-- Witness for C9 at concrete contents: `"Hello"` and `"  hello  "`
normalize identically, hence share a fingerprint. -/
theorem C9_fingerprint_normalization_witness :
    hash_content (fun s => s) "Hello" = hash_content (fun s => s) "  hello  " ∧
    hash_content (fun s => s) "HELLO " = hash_content (fun s => s) " hello" :=
  ⟨(C9_fingerprint_normalization (fun s => s)).1,
   (C9_fingerprint_normalization (fun s => s)).2 "HELLO " " hello" (by decide)⟩

/-! ## Response stabilizer — `src/neta/ui/ai_platforms.py`
(`AIPlatformUI._wait_for_new_response`, `_clean_response_text`) -/

/-- The stability loop of `_wait_for_new_response`.  State: the successive
polled texts of the newest reply element, `last_text` (initially `""`),
`stable_count` (initially `0`), and the number of polls consumed so far.
Each poll increments `stable_count` when the text equals `last_text` and
resets it to `0` otherwise (`max_stable_checks = 3` is hard-coded in the
source); the loop exits once `stable_count` reaches `3`.  Returns the
number of polls consumed and the stabilized text, or `none` when the
given poll sequence ends before stabilization. -/
def stabilizeAux : List String → String → Nat → Nat → Option (Nat × String)
  | [], _, _, _ => none
  | t :: rest, last, count, used =>
    let count' := if t == last then count + 1 else 0
    if 3 ≤ count' then some (used + 1, t)
    else stabilizeAux rest t count' (used + 1)

/-- Run the stability loop from its initial state
(`last_text = ""`, `stable_count = 0`). -/
def stabilize (polls : List String) : Option (Nat × String) :=
  stabilizeAux polls "" 0 0

/-- Remove one citation body: after a `[`, consume one or more digits and
a closing `]`, returning the remaining characters (models `\x5c[\x5cd+\x5c]`). -/
def citTailCont : List Char → Option (List Char)
  | [] => none
  | c :: cs => if c.isDigit then citTailCont cs else if c = ']' then some cs else none

/-- Entry for `citTailCont` demanding at least one digit. -/
def citTail : List Char → Option (List Char)
  | [] => none
  | c :: cs => if c.isDigit then citTailCont cs else none

/-- One left-to-right pass removing citation markers `[1]`, `[2]`, …
(fuel-indexed structural recursion; the fuel is the input length, which a
pass can never exhaust since every step consumes at least one character). -/
def removeCitationsAux : Nat → List Char → List Char
  | 0, l => l
  | _ + 1, [] => []
  | fuel + 1, c :: cs =>
    if c = '[' then
      match citTail cs with
      | some rest => removeCitationsAux fuel rest
      | none => c :: removeCitationsAux fuel cs
    else c :: removeCitationsAux fuel cs

/-- `re.sub` of citation markers on a string. -/
def removeCitations (s : String) : String :=
  String.mk (removeCitationsAux s.toList.length s.toList)

/-- Truncate a single line at its first occurrence of `"Source: "`
(the multiline `re.sub` removes from the match through end of line). -/
def cutSource : List Char → List Char
  | [] => []
  | c :: cs =>
    if (c :: cs).take 8 == "Source: ".toList then []
    else c :: cutSource cs

/-- `re.sub(r"Source: .*?$", "", response, flags=re.MULTILINE)`. -/
def removeSourceLines (s : String) : String :=
  String.mk (List.intercalate ['\n'] ((s.toList.splitOn '\n').map cutSource))

/-- `re.sub(r"([^\n])(- )", r"\x5c1\n\x5c2", response)`: insert a line break
between a non-newline character and a following `"- "`; scanning resumes
after each replaced match, exactly like `re.sub`. -/
def bulletBreaks : List Char → List Char
  | a :: '-' :: ' ' :: rest =>
    if a = '\n' then a :: bulletBreaks ('-' :: ' ' :: rest)
    else a :: '\n' :: '-' :: ' ' :: bulletBreaks rest
  | a :: rest => a :: bulletBreaks rest
  | [] => []

/-- `re.sub(r"\s+", " ", response)`: collapse every whitespace run
(including line breaks) to a single space.  The flag records whether the
previous character was part of a whitespace run. -/
def collapseWsAux : List Char → Bool → List Char
  | [], _ => []
  | c :: cs, prevSpace =>
    if pyIsSpace c then
      (if prevSpace then [] else [' ']) ++ collapseWsAux cs true
    else c :: collapseWsAux cs false

/-- The final multiline block of `_clean_response_text`: split on line
breaks, strip each line, keep the nonempty ones, rejoin. -/
def finalLines (s : String) : String :=
  String.mk (List.intercalate ['\n']
    (((s.toList.splitOn '\n').map pyStripL).filter (fun l => l ≠ [])))

/-- `AIPlatformUI._clean_response_text`.  The source applies the citation
and source-attribution substitutions, then applies both a second time
starting again from `raw_response` (overwriting the first pass with an
identical result), inserts bullet line breaks, collapses all whitespace
runs to single spaces and strips, and finally re-splits on any remaining
line breaks. -/
def clean_response_text (raw : String) : String :=
  let response1 := removeSourceLines (removeCitations raw)
  let response2 := removeSourceLines (removeCitations raw)
  let response3 := String.mk (bulletBreaks response2.toList)
  let response4 := pyStrip (String.mk (collapseWsAux response3.toList false))
  have _ := response1
  finalLines response4

/-- Failure that would escape `_wait_for_new_response` if it re-raised
(the claim under test says a `TimeoutError` should propagate). -/
inductive UIFail
  | timeout
deriving DecidableEq

/-- `AIPlatformUI._wait_for_new_response`.  `appeared` is the result of the
initial `WebDriverWait` bounded by `max_response_wait`: `some t₀` when a
new, nonempty, non-loading reply element with text `t₀` appeared in time,
`none` when that wait timed out (the source catches the resulting
`TimeoutException` and returns `None`).  `polls` are the texts read by the
stability loop; if they end before stabilization the source falls through
and returns the cleaned text of the last reference it holds. -/
def wait_for_new_response (appeared : Option String) (polls : List String) :
    Except UIFail (Option String) :=
  match appeared with
  | none => Except.ok none
  | some t₀ =>
    match stabilize polls with
    | some (_, t) => Except.ok (some (clean_response_text t))
    | none => Except.ok (some (clean_response_text (polls.getLastD t₀)))

/-- **C3 counterexample.** On the spec's own poll sequence
`["", "Hel", "Hello", "Hello", "Hello"]` the stabilizer has *not* yet
returned after the third consecutive identical observation of `"Hello"`
(poll 5): the loop state there is `stable_count = 2 < 3`, so the claimed
return point is wrong. -/
theorem C3_stabilizer_counterexample :
    stabilize ["", "Hel", "Hello", "Hello", "Hello"] = none ∧
    stabilize ["", "Hel", "Hello", "Hello", "Hello"] ≠ some (5, "Hello") := by
  constructor
  · rfl
  · intro h
    simp [stabilize, stabilizeAux] at h

/-- **C3 amended.** The loop counts *repeats*: `stable_count` reaches 3
only once the text has been re-observed unchanged on three consecutive
polls after first appearing, i.e. on the fourth consecutive identical
observation.  On `["", "Hel", "Hello", "Hello", "Hello"]` it has not yet
returned; extending the sequence with a fourth `"Hello"` makes it return
`"Hello"` exactly at the sixth poll. -/
theorem C3_stabilizer_amended :
    stabilize ["", "Hel", "Hello", "Hello", "Hello", "Hello"] = some (6, "Hello") ∧
    stabilize ["", "Hel", "Hello", "Hello", "Hello"] = none := by
  exact ⟨rfl, rfl⟩

/-- **C5 counterexample.** When no new stable reply appears within
`max_response_wait`, `_wait_for_new_response` catches the
`TimeoutException` and *returns `None`* — a normal return value — rather
than failing with a `TimeoutError`. -/
theorem C5_timeout_counterexample :
    wait_for_new_response none [] = Except.ok none ∧
    wait_for_new_response none [] ≠ Except.error UIFail.timeout :=
  ⟨rfl, fun h => Except.noConfusion h⟩

/-- **C5 amended.** On overall timeout the stabilizer completes normally
with `None` (the `TimeoutException` is caught and logged inside
`_wait_for_new_response`); no exception escapes. -/
theorem C5_timeout_amended (polls : List String) :
    wait_for_new_response none polls = Except.ok none :=
  rfl

/-- **C8 evaluation at the failing input.** On the list-like reply
`"Pros:\n- light [1]\n- cheap [2]\nSource: web"` the cleaner strips the
citation markers and the `"Source: …"` line, but the `\s+ → " "` collapse
also destroys every line break, returning the single line
`"Pros: - light - cheap"`; the claimed preservation of line breaks for
multi-line content does not happen. -/
theorem C8_clean_response_newlines_lost :
    clean_response_text "Pros:\n- light [1]\n- cheap [2]\nSource: web" =
      "Pros: - light - cheap" ∧
    ¬ ('\n' ∈ (clean_response_text
      "Pros:\n- light [1]\n- cheap [2]\nSource: web").toList) := by
  constructor
  · rfl
  · decide

/-! ## Group locks — `src/neta/core/automation.py` (`NetaAutomation`)

`NetaAutomation.__init__` creates `group_locks : Dict[str, asyncio.Lock]`,
one `asyncio.Lock` *per group*; `process_message` and `send_response`
each run their UI-automation work inside `async with
self.group_locks[group_name]`.  A lock trace records the acquire/release
events of these critical sections; a trace is valid when no acquire is
attempted on a lock that is already held (an `asyncio.Lock` would suspend
the acquiring task, so such a step cannot complete). -/

/-- Locks currently held: `(group, task)` pairs. -/
abbrev GroupHolds := List (String × Nat)

/-- An acquire or release event on the per-group locks. -/
inductive LockEvent
  | acquire (group : String) (task : Nat)
  | release (group : String)

/-- One completed event against the per-group lock table.  An acquire of a
group whose lock is already held cannot complete (`none`); a release frees
that group's lock. -/
def groupLockStep (holds : GroupHolds) : LockEvent → Option GroupHolds
  | LockEvent.acquire g t =>
    if holds.any (fun p => p.1 == g) then none else some ((g, t) :: holds)
  | LockEvent.release g => some (holds.filter (fun p => ¬ p.1 == g))

/-- Run a trace of lock events from a starting hold table. -/
def runGroupLocks : List LockEvent → GroupHolds → Option GroupHolds
  | [], holds => some holds
  | e :: es, holds =>
    match groupLockStep holds e with
    | some holds' => runGroupLocks es holds'
    | none => none

/-- The groups whose UI critical section is currently active. -/
def groupsOf (holds : GroupHolds) : List String := holds.map (fun p => p.1)

/-- **C2 counterexample.** Two tasks working on the distinct groups
`"Sales"` and `"Support"` can both complete their lock acquisitions and
hold their UI-path critical sections simultaneously — the code locks per
group, so there is no single Resource Lock serializing UI operations of
different groups. -/
theorem C2_single_lock_counterexample :
    runGroupLocks [LockEvent.acquire "Sales" 1, LockEvent.acquire "Support" 2] [] =
      some [("Support", 2), ("Sales", 1)] ∧
    ("Sales" : String) ≠ "Support" := by
  exact ⟨rfl, by decide⟩

/-- **C2 amended.** The per-group `asyncio.Lock` table gives per-group
mutual exclusion only: along any valid trace starting from a hold table
with pairwise-distinct groups, the held groups stay pairwise distinct —
each group's UI-path operations are serialized among themselves — while
distinct groups may hold their locks at the same time. -/
theorem C2_per_group_serialization (trace : List LockEvent) :
    ∀ (s₀ s : GroupHolds), (groupsOf s₀).Nodup →
      runGroupLocks trace s₀ = some s → (groupsOf s).Nodup := by
  induction trace with
  | nil =>
    intro s₀ s h₀ hrun
    simp only [runGroupLocks] at hrun
    injection hrun with h
    exact h ▸ h₀
  | cons e es ih =>
    intro s₀ s h₀ hrun
    cases e with
    | acquire g t =>
      simp only [runGroupLocks, groupLockStep] at hrun
      by_cases hheld : s₀.any (fun p => p.1 == g) = true
      · simp [hheld] at hrun
      · simp only [hheld] at hrun
        simp only [Bool.false_eq_true, if_false] at hrun
        refine ih ((g, t) :: s₀) s ?_ hrun
        simp only [groupsOf, List.map_cons, List.nodup_cons]
        refine ⟨?_, h₀⟩
        intro hmem
        apply hheld
        simp only [List.any_eq_true]
        rcases List.mem_map.mp hmem with ⟨p, hp, hpg⟩
        exact ⟨p, hp, by simp [hpg]⟩
    | release g =>
      simp only [runGroupLocks, groupLockStep] at hrun
      refine ih _ s ?_ hrun
      have hsub : List.Sublist (groupsOf (s₀.filter (fun p => ¬ p.1 == g)))
          (groupsOf s₀) :=
        List.Sublist.map _ (List.filter_sublist s₀)
      exact h₀.sublist hsub

/-- Witness for C2 amended: running one acquire from the empty table
leaves a duplicate-free set of held groups. -/
theorem C2_per_group_serialization_witness :
    (groupsOf [("Sales", 1)]).Nodup :=
  C2_per_group_serialization [LockEvent.acquire "Sales" 1] [] [("Sales", 1)]
    (by decide) rfl

/-! ## Resource-lock watchdog — `src/neta/ui/browser.py` (`TabLock`) -/

/-- The tracked state of one tab's lock: whether the `asyncio.Lock` is
held, the recorded owner task, and the recorded acquisition timestamp
(`lock_owners` / `lock_times` entries; `none` models absence from the
dict). -/
structure TabLockState where
  locked : Bool
  owner : Option Nat
  acquiredAt : Option Nat
deriving DecidableEq

/-- `TabLock.release`: only a held lock is released; the owner and
timestamp tracking entries are then dropped. -/
def tabRelease (s : TabLockState) : TabLockState :=
  if s.locked then { locked := false, owner := none, acquiredAt := none } else s

/-- `TabLock.acquire` at time `now` by task `task`.  First the watchdog:
if a recorded acquisition timestamp exists and the lock has been held for
more than 60 seconds, the lock is force-released (the stuck owner is
logged).  Then the lock is acquired if free; if it is still held by a
live owner the caller waits up to its timeout and fails (`false`) when no
release arrives, which is how `asyncio.wait_for` behaves with no
concurrent release. -/
def tabAcquire (now task : Nat) (s : TabLockState) : Bool × TabLockState :=
  let s₁ :=
    match s.acquiredAt with
    | some t₀ => if 60 < now - t₀ then tabRelease s else s
    | none => s
  if s₁.locked then (false, s₁)
  else (true, { locked := true, owner := some task, acquiredAt := some now })

/-- **C4.** Whenever the lock has been held longer than the 60-second
force-release ceiling, the next `acquire` call force-releases it and then
succeeds: the caller becomes the new owner with a fresh timestamp. -/
theorem C4_watchdog_force_release (s : TabLockState) (now task t₀ : Nat)
    (hlocked : s.locked = true) (htime : s.acquiredAt = some t₀)
    (hstale : 60 < now - t₀) :
    tabAcquire now task s =
      (true, { locked := true, owner := some task, acquiredAt := some now }) := by
  simp [tabAcquire, tabRelease, htime, hstale, hlocked]

/-- Witness for C4: a lock acquired at time 0 and still held at time 100
is force-released and re-acquired by task 2. -/
theorem C4_watchdog_force_release_witness :
    tabAcquire 100 2 { locked := true, owner := some 1, acquiredAt := some 0 } =
      (true, { locked := true, owner := some 2, acquiredAt := some 100 }) :=
  C4_watchdog_force_release
    { locked := true, owner := some 1, acquiredAt := some 0 } 100 2 0
    rfl rfl (by decide)

/-! ## In-flight set — `src/neta/core/automation.py`
(`NetaAutomation.handle_message`, `processing_messages`) -/

/-- The in-flight record: `(group, message_id)` pairs currently owned by a
running `handle_message` task (the per-group `Dict[str, set]` flattened to
pairs). -/
abbrev InFlight := List (String × String)

/-- The entry check of `handle_message`: a message id already in flight is
skipped (`false`) without being added; otherwise it is added. -/
def inflightAdd (group mid : String) (s : InFlight) : Bool × InFlight :=
  if s.any (fun p => p == (group, mid)) then (false, s)
  else (true, (group, mid) :: s)

/-- The `finally` block of `handle_message`: remove the id if present. -/
def inflightRemove (group mid : String) (s : InFlight) : InFlight :=
  if s.any (fun p => p == (group, mid)) then s.erase (group, mid) else s

/-- `NetaAutomation.handle_message`: build `message_id =
f"{message_type}:{message}"`, skip if already in flight, otherwise add it,
run the processing body (whose success or failure `bodySucceeds` does not
affect the bookkeeping), and remove the id in the `finally` block.
Returns whether a handling task actually ran, and the in-flight set after
the task finished. -/
def handle_message (group messageType message : String) (bodySucceeds : Bool)
    (s : InFlight) : Bool × InFlight :=
  let message_id := messageType ++ ":" ++ message
  match inflightAdd group message_id s with
  | (false, s') => (false, s')
  | (true, s') =>
    have _ := bodySucceeds
    (true, inflightRemove group message_id s')

/-- **C7.** In-flight invariant of `handle_message`: a message identifier
already in the set is never added again (the duplicate is skipped without
running a task and the set is unchanged), and when a task does run, the
identifier is gone from the set when the task finishes — whatever the
body's outcome — leaving exactly the original set. -/
theorem C7_inflight_invariant (group messageType message : String)
    (bodySucceeds : Bool) (s : InFlight) :
    ((group, messageType ++ ":" ++ message) ∈ s →
      handle_message group messageType message bodySucceeds s = (false, s)) ∧
    ((group, messageType ++ ":" ++ message) ∉ s →
      handle_message group messageType message bodySucceeds s = (true, s)) := by
  constructor
  · intro hmem
    have hany : s.any (fun p => p == (group, messageType ++ ":" ++ message)) = true := by
      simp only [List.any_eq_true]
      exact ⟨_, hmem, by simp⟩
    simp [handle_message, inflightAdd, hany]
  · intro hmem
    have hany : s.any (fun p => p == (group, messageType ++ ":" ++ message)) = false := by
      simp only [List.any_eq_false]
      intro p hp
      simp only [beq_iff_eq]
      intro hcontra
      exact hmem (hcontra ▸ hp)
    have hany₂ : (((group, messageType ++ ":" ++ message) :: s).any
        (fun p => p == (group, messageType ++ ":" ++ message))) = true := by
      simp
    simp [handle_message, inflightAdd, inflightRemove, hany, hany₂,
      List.erase_cons_head]

/-- Witness for C7 at concrete inputs: a duplicate of an in-flight text
message is skipped, and a fresh one is added and afterwards removed. -/
theorem C7_inflight_invariant_witness :
    handle_message "Sales" "text" "hi" true [("Sales", "text:hi")] =
      (false, [("Sales", "text:hi")]) ∧
    handle_message "Sales" "text" "hi" false [] = (true, []) :=
  ⟨(C7_inflight_invariant "Sales" "text" "hi" true [("Sales", "text:hi")]).1
      (by decide),
   (C7_inflight_invariant "Sales" "text" "hi" false []).2 (by decide)⟩

/-! ## Message detection — `src/neta/ui/whatsapp.py`
(`WhatsAppUI._check_for_text`, `_check_for_image`) -/

/-- `WhatsAppUI._check_for_text` on the latest incoming container.
`spanText` is the text of the first `span.selectable-text` element
(`none` when no such element exists; `some ""` is falsy and skipped).
A non-cached text is cached *before* being returned as a new message.
Returns the `(group, message, "text")` triple (or `none`) together with
the cache state at detection time. -/
def check_for_text (md5 : String → String) (spanText : Option String)
    (group : String) (now : Nat) (cache : Cache) :
    Option (String × String × String) × Cache :=
  match spanText with
  | none => (none, cache)
  | some latest =>
    if latest == "" then (none, cache)
    else if is_cached md5 latest group cache then (none, cache)
    else (some (group, latest, "text"), (cache_content md5 latest group now cache).2)

/-- `WhatsAppUI._check_for_image` on the latest incoming container.
`imgSrc` is the `src` attribute of the first `blob:`/`data:image` element
(`none` when absent; `some ""` is skipped), `downloaded` the local path
produced by `_download_image` (`none` on download failure).  The image
`src` is the deduplicated content: it is cached before the message is
returned. -/
def check_for_image (md5 : String → String) (imgSrc downloaded : Option String)
    (group : String) (now : Nat) (cache : Cache) :
    Option (String × String × String) × Cache :=
  match imgSrc with
  | none => (none, cache)
  | some src =>
    if src == "" then (none, cache)
    else if is_cached md5 src group cache then (none, cache)
    else
      match downloaded with
      | some path => (some (group, path, "image"), (cache_content md5 src group now cache).2)
      | none => (none, cache)

/-- **C10.** Whenever detection returns a new message, its content's
fingerprint is already in the returned (detection-time) cache — before any
routing or delivery uses the message — and a later poll of the same
content against that cache returns no new message, whatever became of the
processing.  For a text message the deduplicated content is the message
text itself; for an image it is the image `src`. -/
theorem C10_detection_caches_first (md5 : String → String)
    (spanText imgSrc downloaded : Option String) (group : String)
    (now now' : Nat) (cache : Cache) :
    (∀ g m k cache',
      check_for_text md5 spanText group now cache = (some (g, m, k), cache') →
        is_cached md5 m group cache' = true ∧
        check_for_text md5 spanText group now' cache' = (none, cache')) ∧
    (∀ g p k cache',
      check_for_image md5 imgSrc downloaded group now cache = (some (g, p, k), cache') →
        ∃ src, imgSrc = some src ∧
          is_cached md5 src group cache' = true ∧
          check_for_image md5 imgSrc downloaded group now' cache' = (none, cache')) := by
  constructor
  · intro g m k cache' h
    match spanText with
    | none => simp [check_for_text] at h
    | some latest =>
      simp only [check_for_text] at h
      by_cases hempty : (latest == "") = true
      · simp [hempty] at h
      · simp only [hempty, Bool.false_eq_true, if_false] at h
        by_cases hc : is_cached md5 latest group cache = true
        · simp [hc] at h
        · simp only [hc, Bool.false_eq_true, if_false, Prod.mk.injEq,
            Option.some.injEq] at h
          obtain ⟨⟨hg, hm, hk⟩, hcache⟩ := h
          subst hm hcache
          have hcached := is_cached_cache_content md5 latest group now cache
          refine ⟨hcached, ?_⟩
          simp [check_for_text, hempty, hcached]
  · intro g p k cache' h
    match imgSrc with
    | none => simp [check_for_image] at h
    | some src =>
      simp only [check_for_image] at h
      by_cases hempty : (src == "") = true
      · simp [hempty] at h
      · simp only [hempty, Bool.false_eq_true, if_false] at h
        by_cases hc : is_cached md5 src group cache = true
        · simp [hc] at h
        · simp only [hc, Bool.false_eq_true, if_false] at h
          match downloaded with
          | none => simp at h
          | some path =>
            simp only [Prod.mk.injEq, Option.some.injEq] at h
            obtain ⟨⟨hg, hp, hk⟩, hcache⟩ := h
            subst hcache
            have hcached := is_cached_cache_content md5 src group now cache
            refine ⟨src, rfl, hcached, ?_⟩
            simp [check_for_image, hempty, hcached]

/-- Witness for C10 at a concrete detection: the text `"hi"` in group
`"Sales"` is returned as new, its fingerprint is in the detection-time
cache, and the immediate re-poll finds nothing new; likewise for an image
with `src` `"blob:1"` downloaded to `"/tmp/img.jpg"`. -/
theorem C10_detection_caches_first_witness :
    (is_cached (fun s => s) "hi" "Sales" [("Sales:hi", 0)] = true ∧
      check_for_text (fun s => s) (some "hi") "Sales" 1 [("Sales:hi", 0)] =
        (none, [("Sales:hi", 0)])) ∧
    ∃ src, (some "blob:1" : Option String) = some src ∧
      is_cached (fun s => s) src "Sales" [("Sales:blob:1", 0)] = true ∧
      check_for_image (fun s => s) (some "blob:1") (some "/tmp/img.jpg") "Sales" 1
        [("Sales:blob:1", 0)] = (none, [("Sales:blob:1", 0)]) :=
  ⟨(C10_detection_caches_first (fun s => s) (some "hi") none none "Sales" 0 1 []).1
      "Sales" "hi" "text" [("Sales:hi", 0)] (by decide),
   (C10_detection_caches_first (fun s => s) none (some "blob:1") (some "/tmp/img.jpg")
      "Sales" 0 1 []).2 "Sales" "/tmp/img.jpg" "image" [("Sales:blob:1", 0)]
      (by decide)⟩

/-! ## Image compression — `src/neta/utils/image_processing.py`
(`compress_image`)

The JPEG encoder itself (PIL) is an external collaborator the spec keeps
out of scope; it is abstracted as `Encoder.size quality scaleStep`, the
byte size produced by saving at the given JPEG quality after
`scaleStep` successive 10% downscales (`scaleStep = 0` is the unresized
image).  The float comparison `os.path.getsize(p)/1024 <= max_size_kb`
is exact and equals `sizeBytes ≤ max_size_kb * 1024`; the float scale
condition `scale_factor > 0.1` with `scale_factor = 0.9 ** k` holds
exactly for `k ≤ 21`. -/

/-- The abstract image/encoder the source manipulates through PIL. -/
structure Encoder where
  /-- `Image.open` (or `os.path.getsize`) raises — caught by the
  enclosing `try`. -/
  openFails : Bool
  /-- `os.path.getsize(image_path)` of the original, in bytes. -/
  origSize : Nat
  /-- Bytes produced by `img.save(..., quality=q)` after `k` downscales. -/
  size : Nat → Nat → Nat

/-- The value `compress_image` returns: the original path, or the
compressed temp file written at the final quality/scale with its size. -/
inductive CompressResult
  | original
  | compressed (quality scaleStep sizeBytes : Nat)
deriving DecidableEq

/-- The quality-reduction loop: `while compressed_size_kb > max_size_kb
and current_quality > 5: current_quality -= 5; save`.  Returns the final
quality.  Fuel-indexed; starting from quality 85 the fuel 17 = 85/5 is
never exhausted before the loop condition fails. -/
def qualityLoop (enc : Encoder) (maxBytes : Nat) : Nat → Nat → Nat
  | q, 0 => q
  | q, fuel + 1 =>
    if maxBytes < enc.size q 0 ∧ 5 < q then qualityLoop enc maxBytes (q - 5) fuel
    else q

/-- The downscale loop: `scale_factor = 0.9; while compressed_size_kb >
max_size_kb and scale_factor > 0.1: resize; save; scale_factor *= 0.9`.
`k` is the next downscale step to try (the saved file of step `k - 1` is
the one whose size the condition tests); `0.9 ** k > 0.1` holds exactly
for `k ≤ 21`.  Returns the final scale step; fuel 22 covers every
possible iteration. -/
def scaleLoop (enc : Encoder) (maxBytes q : Nat) : Nat → Nat → Nat
  | k, 0 => k - 1
  | k, fuel + 1 =>
    if maxBytes < enc.size q (k - 1) ∧ k ≤ 21 then scaleLoop enc maxBytes q (k + 1) fuel
    else k - 1

/-- `compress_image(image_path, max_size_kb, quality=85)`: return the
original path when the file is already within budget; otherwise save at
decreasing quality, then — if still oversized — at decreasing scale; any
exception is caught and the original path returned. -/
def compress_image (enc : Encoder) (maxKb : Nat) : CompressResult :=
  if enc.origSize ≤ maxKb * 1024 then CompressResult.original
  else if enc.openFails = true then CompressResult.original
  else
    let qf := qualityLoop enc (maxKb * 1024) 85 17
    if maxKb * 1024 < enc.size qf 0 then
      let kf := scaleLoop enc (maxKb * 1024) qf 1 22
      CompressResult.compressed qf kf (enc.size qf kf)
    else CompressResult.compressed qf 0 (enc.size qf 0)

theorem qualityLoop_spec (enc : Encoder) (maxBytes : Nat) :
    ∀ fuel q, q % 5 = 0 → 5 ≤ q → q ≤ 5 * fuel →
      5 ≤ qualityLoop enc maxBytes q fuel ∧
      (maxBytes < enc.size (qualityLoop enc maxBytes q fuel) 0 →
        qualityLoop enc maxBytes q fuel = 5) := by
  intro fuel
  induction fuel with
  | zero =>
    intro q hmod hge hle
    exact (by omega : False).elim
  | succ fuel ih =>
    intro q hmod hge hle
    simp only [qualityLoop]
    by_cases hcond : maxBytes < enc.size q 0 ∧ 5 < q
    · rw [if_pos hcond]
      exact ih (q - 5) (by omega) (by omega) (by omega)
    · rw [if_neg hcond]
      refine ⟨hge, fun hlt => ?_⟩
      have := not_and.mp hcond hlt
      omega

theorem scaleLoop_spec (enc : Encoder) (maxBytes q : Nat) :
    ∀ fuel k, 1 ≤ k → k ≤ 22 → k + fuel = 23 →
      scaleLoop enc maxBytes q k fuel ≤ 21 ∧
      (maxBytes < enc.size q (scaleLoop enc maxBytes q k fuel) →
        scaleLoop enc maxBytes q k fuel = 21) := by
  intro fuel
  induction fuel with
  | zero =>
    intro k h1 h22 h23
    exact (by omega : False).elim
  | succ fuel ih =>
    intro k h1 h22 h23
    simp only [scaleLoop]
    by_cases hcond : maxBytes < enc.size q (k - 1) ∧ k ≤ 21
    · rw [if_pos hcond]
      exact ih (k + 1) (by omega) (by omega) (by omega)
    · rw [if_neg hcond]
      refine ⟨by omega, fun hlt => ?_⟩
      rcases not_and_or.mp hcond with h | h
      · exact absurd hlt h
      · omega

/-- **C6.** `compress_image` is a total function (nothing escapes it) and,
for every abstract encoder whose output size shrinks (weakly) as quality
drops and as downscale steps accumulate: an image already within the
budget is returned as the unchanged original path; an unrecoverable
failure (`Image.open` raising) also yields the original path; and an
oversized image yields a compressed file that is within the budget or —
when the budget is unattainable — is the smallest result any attempted
quality/scale combination could achieve. -/
theorem C6_compress_never_raises (enc : Encoder) (maxKb : Nat)
    (hq : ∀ q q' k, q ≤ q' → enc.size q k ≤ enc.size q' k)
    (hk : ∀ q k k', k ≤ k' → enc.size q k' ≤ enc.size q k) :
    (enc.origSize ≤ maxKb * 1024 → compress_image enc maxKb = CompressResult.original) ∧
    (enc.openFails = true → compress_image enc maxKb = CompressResult.original) ∧
    (enc.openFails = false → maxKb * 1024 < enc.origSize →
      ∃ qf kf, compress_image enc maxKb = CompressResult.compressed qf kf (enc.size qf kf) ∧
        (enc.size qf kf ≤ maxKb * 1024 ∨
          ∀ q k, 5 ≤ q → k ≤ 21 → enc.size qf kf ≤ enc.size q k)) := by
  refine ⟨?_, ?_, ?_⟩
  · intro hsmall
    simp [compress_image, hsmall]
  · intro hfail
    by_cases hsmall : enc.origSize ≤ maxKb * 1024
    · simp [compress_image, hsmall]
    · simp [compress_image, hsmall, hfail]
  · intro hok hbig
    have hns : ¬ enc.origSize ≤ maxKb * 1024 := by omega
    have hQ := qualityLoop_spec enc (maxKb * 1024) 17 85 (by decide) (by decide) (by decide)
    simp only [compress_image, if_neg hns, hok, Bool.false_eq_true, if_false]
    by_cases hstill : maxKb * 1024 < enc.size (qualityLoop enc (maxKb * 1024) 85 17) 0
    · rw [if_pos hstill]
      have hqf5 := hQ.2 hstill
      have hS := scaleLoop_spec enc (maxKb * 1024) (qualityLoop enc (maxKb * 1024) 85 17)
        22 1 (by decide) (by decide) (by decide)
      refine ⟨_, _, rfl, ?_⟩
      by_cases hfin : maxKb * 1024 <
          enc.size (qualityLoop enc (maxKb * 1024) 85 17)
            (scaleLoop enc (maxKb * 1024) (qualityLoop enc (maxKb * 1024) 85 17) 1 22)
      · right
        have hkf21 := hS.2 hfin
        intro q k h5q hk21
        rw [hkf21, hqf5]
        calc enc.size 5 21 ≤ enc.size 5 k := hk 5 k 21 hk21
          _ ≤ enc.size q k := hq 5 q k h5q
      · exact Or.inl (by omega)
    · rw [if_neg hstill]
      exact ⟨_, _, rfl, Or.inl (by omega)⟩

/-- Witness for C6 at a concrete encoder: a 600 KB image (614400 bytes)
whose save size is `quality * 1024` bytes independent of scale, against a
50 KB budget.  Both monotonicity hypotheses are discharged concretely. -/
theorem C6_compress_never_raises_witness :
    (({ openFails := false, origSize := 614400, size := fun q _ => q * 1024 } :
        Encoder).origSize ≤ 50 * 1024 →
      compress_image
        { openFails := false, origSize := 614400, size := fun q _ => q * 1024 } 50 =
        CompressResult.original) ∧
    (({ openFails := false, origSize := 614400, size := fun q _ => q * 1024 } :
        Encoder).openFails = true →
      compress_image
        { openFails := false, origSize := 614400, size := fun q _ => q * 1024 } 50 =
        CompressResult.original) ∧
    (({ openFails := false, origSize := 614400, size := fun q _ => q * 1024 } :
        Encoder).openFails = false → 50 * 1024 <
        ({ openFails := false, origSize := 614400, size := fun q _ => q * 1024 } :
          Encoder).origSize →
      ∃ qf kf, compress_image
          { openFails := false, origSize := 614400, size := fun q _ => q * 1024 } 50 =
          CompressResult.compressed qf kf
            (({ openFails := false, origSize := 614400, size := fun q _ => q * 1024 } :
              Encoder).size qf kf) ∧
        (({ openFails := false, origSize := 614400, size := fun q _ => q * 1024 } :
            Encoder).size qf kf ≤ 50 * 1024 ∨
          ∀ q k, 5 ≤ q → k ≤ 21 →
            ({ openFails := false, origSize := 614400, size := fun q _ => q * 1024 } :
              Encoder).size qf kf ≤
            ({ openFails := false, origSize := 614400, size := fun q _ => q * 1024 } :
              Encoder).size q k)) :=
  C6_compress_never_raises
    { openFails := false, origSize := 614400, size := fun q _ => q * 1024 } 50
    (fun _ _ _ h => Nat.mul_le_mul_right 1024 h)
    (fun q _ _ _ => Nat.le_refl (q * 1024))

end Neta
